import Mathlib

/-!
Shallow embedding of the AgentCMS content-store and access-control core
(src/utils/kv.ts, src/utils/content.ts, src/routes/api/publish.ts and the
/api/agent/posts/[slug] route handlers), together with proofs about the
spec's claims on that code.

Modelling conventions:
* The Cloudflare KV namespace is modelled as a total function from string
  keys to optional typed values.  The routes only ever store post records
  (under keys `posts:SLUG` and `posts:draft:SLUG`) and the singleton index
  document (under `posts:index`), so the value type is a sum of those two.
* ISO-8601 timestamp strings are modelled as natural numbers (their
  millisecond epoch value, which `new Date(s).getTime()` yields and which
  the index comparator sorts by).  The empty string `""` that the code uses
  for "not yet published" is modelled as `0`, matching its JS falsiness.
* Promises are collapsed: each handler is a pure state-transformer from a
  store to a store plus a response value.  The fire-and-forget webhook
  (src/utils/webhook.ts) never touches the KV store and never affects the
  response, so it has no footprint in the state model.
-/

/-- Post lifecycle status, `"published" | "draft" | "scheduled"` in types.ts. -/
inductive Status where
  | published
  | draft
  | scheduled
deriving DecidableEq, Repr

/-- Author type, `"agent" | "human"` in types.ts. -/
inductive AuthorType where
  | agent
  | human
deriving DecidableEq, Repr

/-- Credential scope, `AgentKeyScope` in types.ts:
`"admin" | "publish" | "draft-only" | "read-only"`. -/
inductive Scope where
  | admin
  | publish
  | draftOnly
  | readOnly
deriving DecidableEq, Repr

/-- `AgentMetadata` from types.ts (timestamps as epoch numbers). -/
structure AgentMetadata where
  model : String
  promptHash : Option String
  generatedAt : Nat
  toolsUsed : Option (List String)
  paymentRef : Option String
deriving DecidableEq, Repr

/-- `AgentCMSPost` from types.ts.  Optional fields are `Option`s; the
`metadata : Record<string, unknown>` bag is always set to `{}` by the
routes and carries no information for these claims, so it is `Unit`. -/
structure AgentCMSPost where
  slug : String
  title : String
  description : String
  content : String
  contentHtml : Option String
  author : String
  authorType : AuthorType
  tags : List String
  category : Option String
  publishedAt : Nat
  updatedAt : Nat
  status : Status
  scheduledFor : Option String
  featuredImage : Option String
  ogImage : Option String
  readingTime : Option Nat
  featured : Option Bool
  metadata : Unit
  agentMetadata : Option AgentMetadata
deriving DecidableEq, Repr

/-- `PostIndexEntry` from types.ts. -/
structure PostIndexEntry where
  slug : String
  title : String
  description : String
  publishedAt : Nat
  tags : List String
  category : Option String
  author : String
  authorType : AuthorType
  featuredImage : Option String
  featured : Option Bool
deriving DecidableEq, Repr

/-- `PostIndex` from types.ts: the singleton denormalized listing document. -/
structure PostIndex where
  posts : List PostIndexEntry
  totalCount : Nat
  lastUpdated : Nat
deriving DecidableEq, Repr

/-- The values these routes store in KV: post records and the index
document.  (The real store holds JSON strings; the routes always
`JSON.stringify` on put and parse with `"json"` on get, so the typed view
is faithful for every key the claims touch.) -/
inductive KVValue where
  | post (p : AgentCMSPost)
  | idx (i : PostIndex)
deriving DecidableEq, Repr

/-- A KV namespace: key to optional stored value. -/
abbrev KVStore := String → Option KVValue

/-- `KEYS.post` from kv.ts. -/
def postKey (slug : String) : String := "posts:" ++ slug

/-- `KEYS.draft` from kv.ts. -/
def draftKey (slug : String) : String := "posts:draft:" ++ slug

/-- `KEYS.index` from kv.ts. -/
def indexKey : String := "posts:index"

/-- `kv.put(key, value)`. -/
def kvPut (st : KVStore) (key : String) (v : KVValue) : KVStore :=
  fun k => if k = key then some v else st k

/-- `kv.delete(key)`. -/
def kvDelete (st : KVStore) (key : String) : KVStore :=
  fun k => if k = key then none else st k

/-- `getPost` from kv.ts: reads the published-namespace key only. -/
def getPost (st : KVStore) (slug : String) : Option AgentCMSPost :=
  match st (postKey slug) with
  | some (KVValue.post p) => some p
  | _ => none

/-- `putPost` from kv.ts: a draft goes under the draft key namespace,
every other status under the published key namespace. -/
def putPost (st : KVStore) (post : AgentCMSPost) : KVStore :=
  let key := if post.status = Status.draft then draftKey post.slug else postKey post.slug
  kvPut st key (KVValue.post post)

/-- `deletePost` from kv.ts: deletes both namespace keys unconditionally. -/
def deletePost (st : KVStore) (slug : String) : KVStore :=
  kvDelete (kvDelete st (postKey slug)) (draftKey slug)

/-- The empty-index default of `getIndex`. -/
def emptyIndex : PostIndex := { posts := [], totalCount := 0, lastUpdated := 0 }

/-- `getIndex` from kv.ts: the stored index document, or the empty default. -/
def getIndex (st : KVStore) : PostIndex :=
  match st indexKey with
  | some (KVValue.idx i) => i
  | _ => emptyIndex

/-- Index mutation action, `"upsert" | "remove"` in kv.ts. -/
inductive IndexAction where
  | upsert
  | remove
deriving DecidableEq, Repr

/-- The `PostIndexEntry` literal built inside `updateIndex`. -/
def mkEntry (post : AgentCMSPost) : PostIndexEntry :=
  { slug := post.slug
    title := post.title
    description := post.description
    publishedAt := post.publishedAt
    tags := post.tags
    category := post.category
    author := post.author
    authorType := post.authorType
    featuredImage := post.featuredImage
    featured := post.featured }

/-- The comparator of `updateIndex`:
`(a, b) => new Date(b.publishedAt).getTime() - new Date(a.publishedAt).getTime()`
sorts entries by their publishedAt time, newest first.  `entryGE a b` says
`a` may legitimately precede `b` in that order. -/
def entryGE (a b : PostIndexEntry) : Prop := b.publishedAt ≤ a.publishedAt

instance : DecidableRel entryGE := fun a b => Nat.decLe b.publishedAt a.publishedAt

instance : IsTotal PostIndexEntry entryGE :=
  ⟨fun a b => (Nat.le_total b.publishedAt a.publishedAt).imp id id⟩

instance : IsTrans PostIndexEntry entryGE :=
  ⟨fun _ _ _ hab hbc => Nat.le_trans hbc hab⟩

/-- `updateIndex` from kv.ts: read the whole singleton, drop any entry with
the post's slug, insert a fresh entry only on an upsert of a published
post, sort newest-first, refresh the counters, and write the whole
document back. -/
def updateIndex (st : KVStore) (post : AgentCMSPost) (action : IndexAction) (now : Nat) : KVStore :=
  let index := getIndex st
  let kept := index.posts.filter (fun p => p.slug ≠ post.slug)
  let upserted :=
    if action = IndexAction.upsert ∧ post.status = Status.published then
      mkEntry post :: kept
    else kept
  let sorted := List.insertionSort entryGE upserted
  let newIndex : PostIndex :=
    { posts := sorted, totalCount := sorted.length, lastUpdated := now }
  kvPut st indexKey (KVValue.idx newIndex)

/-- Rate-limit counter store: counter key to (count, expirationTtl seconds).
The source stores the decimal rendering of the count and passes
`expirationTtl: 3600` on every write; the model keeps the parsed count and
the TTL that was attached to the write. -/
abbrev RLStore := String → Option (Nat × Nat)

/-- `KEYS.rateLimit` from kv.ts. -/
def rateLimitKey (keyHash hour : String) : String :=
  "ratelimit:" ++ keyHash ++ ":" ++ hour

/-- `checkRateLimit` from kv.ts.  `hour` is the hour bucket
`new Date().toISOString().slice(0, 13)`; an absent counter parses as 0. -/
def checkRateLimit (st : RLStore) (keyHash hour : String) (limit : Nat) :
    RLStore × Bool × Nat :=
  let key := rateLimitKey keyHash hour
  let current := ((st key).map Prod.fst).getD 0
  if limit ≤ current then
    (st, false, 0)
  else
    (fun k => if k = key then some (current + 1, 3600) else st k,
     true, limit - current - 1)

/-!
Content utilities from src/utils/content.ts.  JS regexes over strings are
modelled as structural recursions over `List Char`.  `String.toLowerCase`
is modelled on its ASCII action; the only characters whose JS lowering
differs (non-ASCII case-mapped letters) are removed by the immediately
following `[^\w\s-]` filter in `slugify`, whose classes are pure ASCII.
-/

/-- Membership in the JS regex class `\w`, i.e. `[A-Za-z0-9_]`. -/
def isAsciiWordChar (c : Char) : Bool :=
  decide ((97 ≤ c.toNat ∧ c.toNat ≤ 122) ∨ (65 ≤ c.toNat ∧ c.toNat ≤ 90) ∨
    (48 ≤ c.toNat ∧ c.toNat ≤ 57) ∨ c.toNat = 95)

/-- Membership in the JS regex class `\s` (also the `trim()` set):
ASCII whitespace plus the Unicode space separators, LS, PS and BOM. -/
def isJsSpace (c : Char) : Bool :=
  decide (c.toNat = 32 ∨ (9 ≤ c.toNat ∧ c.toNat ≤ 13) ∨ c.toNat = 160 ∨
    c.toNat = 5760 ∨ (8192 ≤ c.toNat ∧ c.toNat ≤ 8202) ∨ c.toNat = 8232 ∨
    c.toNat = 8233 ∨ c.toNat = 8239 ∨ c.toNat = 8287 ∨ c.toNat = 12288 ∨
    c.toNat = 65279)

/-- ASCII action of `String.prototype.toLowerCase`. -/
def jsToLower (c : Char) : Char :=
  if 65 ≤ c.toNat ∧ c.toNat ≤ 90 then Char.ofNat (c.toNat + 32) else c

/-- Remove the trailing run of characters satisfying `p` (the `X+$` part of
an anchored regex replacement with the empty string). -/
def dropTrailing (p : Char → Bool) : List Char → List Char
  | [] => []
  | c :: cs =>
    let rest := dropTrailing p cs
    if rest.isEmpty && p c then [] else c :: rest

/-- `trim()`: drop leading and trailing JS whitespace. -/
def trimL (l : List Char) : List Char :=
  dropTrailing isJsSpace (l.dropWhile isJsSpace)

/-- Replace every maximal run of characters satisfying `p` by the single
character `rep` (a global `replace(/[class]+/g, rep)`). -/
def collapseRuns (p : Char → Bool) (rep : Char) : Bool → List Char → List Char
  | _, [] => []
  | inRun, c :: cs =>
    if p c then
      if inRun then collapseRuns p rep true cs
      else rep :: collapseRuns p rep true cs
    else c :: collapseRuns p rep false cs

/-- `slugify` from content.ts, on character lists:
lowercase, trim, strip `[^\w\s-]`, turn `[\s_]+` runs into `-`, collapse
`-+` runs, strip leading/trailing hyphen runs, then `slice(0, 80)`. -/
def slugifyL (t : List Char) : List Char :=
  let lowered := t.map jsToLower
  let trimmed := trimL lowered
  let filtered := trimmed.filter (fun c => isAsciiWordChar c || isJsSpace c || c = '-')
  let dashed := collapseRuns (fun c => isJsSpace c || c = '_') '-' false filtered
  let collapsed := collapseRuns (fun c => c = '-') '-' false dashed
  let stripped := dropTrailing (fun c => c = '-') (collapsed.dropWhile (fun c => c = '-'))
  stripped.take 80

/-- `slugify` from content.ts. -/
def slugify (t : String) : String := String.mk (slugifyL t.data)

/-- Number of maximal runs of non-`\s` characters (what
`trimmed.split(/\s+/).length` counts on a trimmed, non-empty string); the
flag records whether the scan is inside such a run. -/
def wordRuns : Bool → List Char → Nat
  | _, [] => 0
  | inWord, c :: cs =>
    if isJsSpace c then wordRuns false cs
    else (if inWord then 0 else 1) + wordRuns true cs

/-- `calculateReadingTime` from content.ts:
`Math.max(1, Math.ceil(words / 230))`.  On the empty string the JS split
yields `[""]` (one element) and the result is also 1, so counting word
runs of the trimmed content is exact. -/
def calculateReadingTime (content : String) : Nat :=
  let words := wordRuns false (trimL content.data)
  Nat.max 1 ((words + 229) / 230)

/-- One pass of `replace(/#{1,6}\s/g, "")`: a greedy run of at most six
hash marks followed by one whitespace character is removed; the fuel (one
unit per consumed character) makes the scan structural. -/
def replHashGo : Nat → List Char → List Char
  | _, [] => []
  | 0, l => l
  | fuel + 1, c :: cs =>
    if c = '#' then
      let k := Nat.min 6 (1 + (cs.takeWhile (fun d => d = '#')).length)
      match (c :: cs).drop k with
      | d :: rest2 =>
          if isJsSpace d then replHashGo fuel rest2
          else c :: replHashGo fuel cs
      | [] => c :: replHashGo fuel cs
    else c :: replHashGo fuel cs

/-- `replace(/\*\*|__/g, "")`. -/
def replBoldGo : Nat → List Char → List Char
  | _, [] => []
  | 0, l => l
  | fuel + 1, c :: cs =>
    match c, cs with
    | '*', '*' :: rest => replBoldGo fuel rest
    | '_', '_' :: rest => replBoldGo fuel rest
    | c, _ => c :: replBoldGo fuel cs

/-- Try to match `\[([^\]]+)\]\([^)]+\)` at the head of the list, giving
the link text and the remainder after the match. -/
def tryLink (l : List Char) : Option (List Char × List Char) :=
  match l with
  | '[' :: rest =>
    let txt := rest.takeWhile (fun c => c ≠ ']')
    if txt.isEmpty then none
    else
      match rest.drop txt.length with
      | ']' :: '(' :: rest2 =>
        let url := rest2.takeWhile (fun c => c ≠ ')')
        if url.isEmpty then none
        else
          match rest2.drop url.length with
          | ')' :: rest3 => some (txt, rest3)
          | _ => none
      | _ => none
  | _ => none

/-- `replace(/\[([^\]]+)\]\([^)]+\)/g, "$1")`: keep the link text. -/
def replLinksGo : Nat → List Char → List Char
  | _, [] => []
  | 0, l => l
  | fuel + 1, c :: cs =>
    match tryLink (c :: cs) with
    | some (txt, rest) => txt ++ replLinksGo fuel rest
    | none => c :: replLinksGo fuel cs

/-- Find the first occurrence of a backtick triple, returning the suffix
after it. -/
def findTriple : List Char → Option (List Char)
  | '`' :: '`' :: '`' :: rest => some rest
  | _ :: rest => findTriple rest
  | [] => none

/-- `replace(/```[\s\S]*?```/g, "")`: drop each lazily-matched fenced
block (everything from an opening triple through the next triple). -/
def replCodeBlocksGo : Nat → List Char → List Char
  | _, [] => []
  | 0, l => l
  | fuel + 1, c :: cs =>
    match c :: cs with
    | '`' :: '`' :: '`' :: rest =>
      match findTriple rest with
      | some rest2 => replCodeBlocksGo fuel rest2
      | none => c :: replCodeBlocksGo fuel cs
    | _ => c :: replCodeBlocksGo fuel cs

/-- Try to match `` `[^`]+` `` at the head of the list, giving the
remainder after the match. -/
def tryInlineCode (l : List Char) : Option (List Char) :=
  match l with
  | '`' :: rest =>
    let txt := rest.takeWhile (fun c => c ≠ '`')
    if txt.isEmpty then none
    else
      match rest.drop txt.length with
      | '`' :: rest2 => some rest2
      | _ => none
  | _ => none

/-- `replace(/`[^`]+`/g, "")`. -/
def replInlineCodeGo : Nat → List Char → List Char
  | _, [] => []
  | 0, l => l
  | fuel + 1, c :: cs =>
    match tryInlineCode (c :: cs) with
    | some rest => replInlineCodeGo fuel rest
    | none => c :: replInlineCodeGo fuel cs

/-- Try to match `!\[[^\]]*\]\([^)]+\)` at the head of the list (image
syntax; the alt text may be empty), giving the remainder after it. -/
def tryImage (l : List Char) : Option (List Char) :=
  match l with
  | '!' :: '[' :: rest =>
    let txt := rest.takeWhile (fun c => c ≠ ']')
    match rest.drop txt.length with
    | ']' :: '(' :: rest2 =>
      let url := rest2.takeWhile (fun c => c ≠ ')')
      if url.isEmpty then none
      else
        match rest2.drop url.length with
        | ')' :: rest3 => some rest3
        | _ => none
    | _ => none
  | _ => none

/-- `replace(/!\[[^\]]*\]\([^)]+\)/g, "")`. -/
def replImagesGo : Nat → List Char → List Char
  | _, [] => []
  | 0, l => l
  | fuel + 1, c :: cs =>
    match tryImage (c :: cs) with
    | some rest => replImagesGo fuel rest
    | none => c :: replImagesGo fuel cs

/-- `replace(/\s+\S*$/, "")` (no global flag): when the string ends in a
whitespace run followed by an optional word, remove that trailing
whitespace run and word; otherwise leave it unchanged. -/
def stripLastWord (l : List Char) : List Char :=
  let s1 := dropTrailing (fun c => !isJsSpace c) l
  let s2 := dropTrailing isJsSpace s1
  if s2 = s1 then l else s2

/-- `generateDescription` from content.ts: strip markdown, collapse
newline runs to spaces, trim, and truncate at `maxLength` on a word
boundary with a `...` suffix. -/
def generateDescription (content : String) (maxLength : Nat := 155) : String :=
  let l0 := content.data
  let l1 := replHashGo l0.length l0
  let l2 := replBoldGo l1.length l1
  let l3 := l2.filter (fun c => !(c = '*' || c = '_'))
  let l4 := replLinksGo l3.length l3
  let l5 := replCodeBlocksGo l4.length l4
  let l6 := replInlineCodeGo l5.length l5
  let l7 := replImagesGo l6.length l6
  let l8 := collapseRuns (fun c => c = '\n') ' ' false l7
  let plain := trimL l8
  if plain.length ≤ maxLength then String.mk plain
  else String.mk (stripLastWord (plain.take (maxLength - 3))) ++ "..."

/-!
Route handlers.  Authentication (`validateApiKey`) and quota accounting
(`checkRateLimit`, modelled above over its own counter store) run before
the logic below and do not touch the post/index keys; the handlers are
modelled from the point where the caller's scope is known and the quota
check has passed, exactly as in publish.ts and the [slug] route.
-/

/-- `isValidSlug` from the [slug] route: non-empty, at most 80 characters,
matching `^[a-z0-9-]+$`. -/
def isValidSlug (slug : String) : Bool :=
  decide (0 < slug.length ∧ slug.length ≤ 80 ∧
    ∀ c ∈ slug.data, (97 ≤ c.toNat ∧ c.toNat ≤ 122) ∨
      (48 ≤ c.toNat ∧ c.toNat ≤ 57) ∨ c.toNat = 45)

/-- The parsed `UpdateSchema` body of the PUT handler.  Every field is
optional; `z.optional().nullable()` fields distinguish an explicit `null`
(`some none`) from an absent key (`none`).  Zod strips unknown keys, so a
body cannot carry `slug`, `author` or `authorType` into the parsed data. -/
structure UpdateData where
  title : Option String
  content : Option String
  description : Option String
  tags : Option (List String)
  category : Option String
  status : Option Status
  scheduledFor : Option String
  featuredImage : Option (Option String)
  ogImage : Option (Option String)
  featured : Option Bool
deriving DecidableEq, Repr

/-- The all-absent update body. -/
def emptyUpdate : UpdateData :=
  { title := none, content := none, description := none, tags := none,
    category := none, status := none, scheduledFor := none,
    featuredImage := none, ogImage := none, featured := none }

/-- The merge step of the PUT handler (lines 106-136 of the [slug] route):
force draft status for a draft-only scope, spread the parsed data over the
existing record, re-assert the immutable fields, clear nullables passed as
explicit null, recompute derived fields when content changed, and stamp
`publishedAt` on a first transition to published. -/
def mergePut (existing : AgentCMSPost) (data0 : UpdateData) (scope : Scope) (now : Nat) :
    AgentCMSPost :=
  let data := if scope = Scope.draftOnly then { data0 with status := some Status.draft }
              else data0
  let base : AgentCMSPost :=
    { slug := existing.slug
      title := data.title.getD existing.title
      description := data.description.getD existing.description
      content := data.content.getD existing.content
      contentHtml := existing.contentHtml
      author := existing.author
      authorType := existing.authorType
      tags := data.tags.getD existing.tags
      category := match data.category with
                  | some c => some c
                  | none => existing.category
      publishedAt := existing.publishedAt
      updatedAt := now
      status := data.status.getD existing.status
      scheduledFor := match data.scheduledFor with
                      | some s => some s
                      | none => existing.scheduledFor
      featuredImage := match data.featuredImage with
                       | some none => none
                       | some (some s) => some s
                       | none => existing.featuredImage
      ogImage := match data.ogImage with
                 | some none => none
                 | some (some s) => some s
                 | none => existing.ogImage
      readingTime := existing.readingTime
      featured := match data.featured with
                  | some b => some b
                  | none => existing.featured
      metadata := existing.metadata
      agentMetadata := existing.agentMetadata }
  let withDerived :=
    if data.content.getD "" ≠ "" then
      let c := data.content.getD ""
      let rt := { base with readingTime := some (calculateReadingTime c) }
      if data.description.getD "" = "" then
        { rt with description :=
            if existing.description ≠ "" then existing.description
            else generateDescription c }
      else rt
    else base
  if data.status = some Status.published ∧ existing.publishedAt = 0 then
    { withDerived with publishedAt := now }
  else withDerived

/-- Responses of the PUT handler that the model distinguishes. -/
inductive PutResult where
  | invalidSlug
  | forbidden
  | notFound
  | validationFailed
  | ok (slug : String) (status : Status)
deriving DecidableEq, Repr

/-- The PUT handler of the [slug] route, from the slug-validity gate
onward (`parsed = none` models a body that failed JSON parsing or schema
validation): merge, write via `putPost`, and re-run `updateIndex`. -/
def putHandler (st : KVStore) (slugParam : String) (scope : Scope)
    (parsed : Option UpdateData) (now : Nat) : KVStore × PutResult :=
  if ¬ isValidSlug slugParam then (st, PutResult.invalidSlug)
  else if scope = Scope.readOnly then (st, PutResult.forbidden)
  else
    match getPost st slugParam with
    | none => (st, PutResult.notFound)
    | some existing =>
      match parsed with
      | none => (st, PutResult.validationFailed)
      | some data0 =>
        let u := mergePut existing data0 scope now
        let st1 := putPost st u
        let st2 := updateIndex st1 u IndexAction.upsert now
        (st2, PutResult.ok u.slug u.status)

/-- The parsed `PublishSchema` body of publish.ts.  Zod defaults are
already applied: `tags` defaults to `[]`, `status` to published,
`featured` to `false`. -/
structure PublishData where
  title : String
  content : String
  description : Option String
  tags : List String
  category : Option String
  status : Status
  scheduledFor : Option String
  featuredImage : Option String
  slug : Option String
  featured : Bool
deriving DecidableEq, Repr

/-- Responses of the publish (create) handler that the model
distinguishes. -/
inductive PublishResult where
  | forbidden
  | conflict (slug : String)
  | created (slug : String) (status : Status) (publishedAt : Nat)
deriving DecidableEq, Repr

/-- The `const post: AgentCMSPost = { ... }` literal that publish.ts
builds before writing. -/
def buildPublishPost (agentName agentModelHeader : String) (data : PublishData)
    (slug : String) (effectiveStatus : Status) (now : Nat) : AgentCMSPost :=
  { slug := slug
    title := data.title
    description := if data.description.getD "" = "" then generateDescription data.content
                   else data.description.getD ""
    content := data.content
    contentHtml := none
    author := agentName
    authorType := AuthorType.agent
    tags := data.tags
    category := data.category
    publishedAt := if effectiveStatus = Status.published then now else 0
    updatedAt := now
    status := effectiveStatus
    scheduledFor := data.scheduledFor
    featuredImage := data.featuredImage
    ogImage := none
    readingTime := some (calculateReadingTime data.content)
    featured := some data.featured
    metadata := ()
    agentMetadata := some { model := agentModelHeader, promptHash := none,
                            generatedAt := now, toolsUsed := none,
                            paymentRef := none } }

/-- The POST /api/agent/publish handler from the scope gate onward:
derive the slug, reject on a published-namespace collision, force draft
status for a draft-only scope, build the post record, write it via
`putPost`, and update the index only when the effective status is
published. -/
def postHandler (st : KVStore) (scope : Scope) (agentName : String)
    (agentModelHeader : String) (data : PublishData) (now : Nat) :
    KVStore × PublishResult :=
  if scope = Scope.readOnly then (st, PublishResult.forbidden)
  else
    let slug := if data.slug.getD "" = "" then slugify data.title else data.slug.getD ""
    match getPost st slug with
    | some _ => (st, PublishResult.conflict slug)
    | none =>
      let effectiveStatus := if scope = Scope.draftOnly then Status.draft else data.status
      let post := buildPublishPost agentName agentModelHeader data slug effectiveStatus now
      let st1 := putPost st post
      let st2 := if effectiveStatus = Status.published then updateIndex st1 post IndexAction.upsert now
                 else st1
      (st2, PublishResult.created slug effectiveStatus post.publishedAt)

/-- The store with no keys at all (in particular, the empty index). -/
def emptyStore : KVStore := fun _ => none

/-- One recorded `updateIndex` invocation. -/
structure IndexCall where
  post : AgentCMSPost
  action : IndexAction
  now : Nat

/-- Apply a sequence of `updateIndex` invocations in order. -/
def applyIndexCalls (st : KVStore) (calls : List IndexCall) : KVStore :=
  calls.foldl (fun s c => updateIndex s c.post c.action c.now) st

/-!
Helper lemmas about keys and the index, shared by the claim theorems.
-/

theorem draftKey_ne_indexKey (s : String) : draftKey s ≠ indexKey := by
  intro h
  have h1 : (draftKey s).length = indexKey.length := congrArg String.length h
  unfold draftKey indexKey at h1
  rw [String.length_append] at h1
  have h2 : ("posts:draft:" : String).length = 12 := rfl
  have h3 : ("posts:index" : String).length = 11 := rfl
  omega

theorem getIndex_updateIndex (st : KVStore) (p : AgentCMSPost) (a : IndexAction) (t : Nat) :
    getIndex (updateIndex st p a t) =
      { posts := List.insertionSort entryGE
          (if a = IndexAction.upsert ∧ p.status = Status.published then
            mkEntry p :: (getIndex st).posts.filter (fun e => e.slug ≠ p.slug)
          else (getIndex st).posts.filter (fun e => e.slug ≠ p.slug)),
        totalCount := (List.insertionSort entryGE
          (if a = IndexAction.upsert ∧ p.status = Status.published then
            mkEntry p :: (getIndex st).posts.filter (fun e => e.slug ≠ p.slug)
          else (getIndex st).posts.filter (fun e => e.slug ≠ p.slug))).length,
        lastUpdated := t } := by
  unfold updateIndex getIndex kvPut
  simp

/-- Claim C8: for every slug and store state, `deletePost` removes both the
published-namespace key and the draft-namespace key, and it is idempotent:
deleting twice equals deleting once (so a second call never errors and
both namespaces stay absent). -/
theorem deletePost_removes_both_and_idempotent (st : KVStore) (s : String) :
    deletePost st s (postKey s) = none ∧
    deletePost st s (draftKey s) = none ∧
    deletePost (deletePost st s) s = deletePost st s := by
  refine ⟨?_, ?_, ?_⟩
  · by_cases h : postKey s = draftKey s <;> simp [deletePost, kvDelete, h]
  · simp [deletePost, kvDelete]
  · funext k
    by_cases h1 : k = draftKey s <;> by_cases h2 : k = postKey s <;>
      simp [deletePost, kvDelete, h1, h2]

/-- Claim C3: when the current hour-bucket counter is at or above the
limit, `checkRateLimit` answers not-allowed with remaining 0 and writes
nothing; otherwise it increments the counter by one with a 3600-second
TTL, leaves every other key alone, and answers allowed with remaining
`limit - count - 1`. -/
theorem checkRateLimit_spec (st : RLStore) (kh hour : String) (limit : Nat) :
    (limit ≤ ((st (rateLimitKey kh hour)).map Prod.fst).getD 0 →
      checkRateLimit st kh hour limit = (st, false, 0)) ∧
    (((st (rateLimitKey kh hour)).map Prod.fst).getD 0 < limit →
      (checkRateLimit st kh hour limit).2.1 = true ∧
      (checkRateLimit st kh hour limit).2.2 =
        limit - ((st (rateLimitKey kh hour)).map Prod.fst).getD 0 - 1 ∧
      (checkRateLimit st kh hour limit).1 (rateLimitKey kh hour) =
        some (((st (rateLimitKey kh hour)).map Prod.fst).getD 0 + 1, 3600) ∧
      ∀ k, k ≠ rateLimitKey kh hour →
        (checkRateLimit st kh hour limit).1 k = st k) := by
  constructor
  · intro h
    simp [checkRateLimit, h]
  · intro h
    have hn : ¬ limit ≤ ((st (rateLimitKey kh hour)).map Prod.fst).getD 0 :=
      Nat.not_le.mpr h
    refine ⟨?_, ?_, ?_, ?_⟩ <;> simp [checkRateLimit, hn]
    intro k hk
    simp [hk]

/-- Witness for C3 at the spec's own numbers: a counter already at 10 with
limit 10 is refused with remaining 0 and the store untouched, and a fresh
hour bucket is allowed with remaining 9 and its counter set to 1 with a
one-hour TTL. -/
theorem checkRateLimit_spec_witness :
    checkRateLimit (fun k => if k = rateLimitKey "h" "2025-01-01T00" then some (10, 3600) else none)
      "h" "2025-01-01T00" 10 =
      ((fun k => if k = rateLimitKey "h" "2025-01-01T00" then some (10, 3600) else none), false, 0) ∧
    (checkRateLimit (fun _ => none) "h" "2025-01-01T01" 10).2.1 = true ∧
    (checkRateLimit (fun _ => none) "h" "2025-01-01T01" 10).2.2 = 9 ∧
    (checkRateLimit (fun _ => none) "h" "2025-01-01T01" 10).1
      (rateLimitKey "h" "2025-01-01T01") = some (1, 3600) := by
  have h1 := (checkRateLimit_spec
    (fun k => if k = rateLimitKey "h" "2025-01-01T00" then some (10, 3600) else none)
    "h" "2025-01-01T00" 10).1 (by decide)
  have h2 := (checkRateLimit_spec (fun _ => none) "h" "2025-01-01T01" 10).2 (by decide)
  exact ⟨h1, h2.1, h2.2.1, h2.2.2.1⟩

/-- Claim C7: after any `updateIndex` call, the persisted index is sorted
by publishedAt descending (every entry is `entryGE` every later one) and
its `totalCount` equals the number of entries. -/
theorem updateIndex_sorted_and_counted (st : KVStore) (p : AgentCMSPost)
    (a : IndexAction) (t : Nat) :
    List.Sorted entryGE (getIndex (updateIndex st p a t)).posts ∧
    (getIndex (updateIndex st p a t)).totalCount =
      (getIndex (updateIndex st p a t)).posts.length := by
  rw [getIndex_updateIndex]
  exact ⟨List.sorted_insertionSort entryGE _, rfl⟩

theorem mergePut_immutable (existing : AgentCMSPost) (data : UpdateData)
    (scope : Scope) (now : Nat) :
    (mergePut existing data scope now).slug = existing.slug ∧
    (mergePut existing data scope now).author = existing.author ∧
    (mergePut existing data scope now).authorType = existing.authorType := by
  refine ⟨?_, ?_, ?_⟩ <;> simp only [mergePut] <;> (repeat' first | rfl | split)

/-- Claim C9: a PUT on an existing post always stores the merge result,
and that merge result re-asserts `slug`, `author` and `authorType` from
the pre-existing record, whatever the parsed body contained. -/
theorem put_preserves_immutable_fields (st : KVStore) (slugParam : String)
    (scope : Scope) (data : UpdateData) (now : Nat) (existing : AgentCMSPost)
    (hv : isValidSlug slugParam = true) (hscope : scope ≠ Scope.readOnly)
    (hex : getPost st slugParam = some existing) :
    putHandler st slugParam scope (some data) now =
      (updateIndex (putPost st (mergePut existing data scope now))
        (mergePut existing data scope now) IndexAction.upsert now,
       PutResult.ok (mergePut existing data scope now).slug
         (mergePut existing data scope now).status) ∧
    (mergePut existing data scope now).slug = existing.slug ∧
    (mergePut existing data scope now).author = existing.author ∧
    (mergePut existing data scope now).authorType = existing.authorType := by
  refine ⟨?_, mergePut_immutable existing data scope now⟩
  simp [putHandler, hv, hscope, hex]

/-- Claim C5: a create request under a draft-only scope, whatever status
the body asks for, persists the post with status draft under the draft
key namespace, leaves the index document untouched, and reports the
forced draft status (with no publishedAt stamp). -/
theorem draft_only_create_forces_draft (st : KVStore) (an am : String)
    (data : PublishData) (now : Nat)
    (hno : getPost st (if data.slug.getD "" = "" then slugify data.title else data.slug.getD "") = none) :
    (postHandler st Scope.draftOnly an am data now).1
        (draftKey (if data.slug.getD "" = "" then slugify data.title else data.slug.getD ""))
      = some (KVValue.post (buildPublishPost an am data
          (if data.slug.getD "" = "" then slugify data.title else data.slug.getD "")
          Status.draft now)) ∧
    (buildPublishPost an am data
      (if data.slug.getD "" = "" then slugify data.title else data.slug.getD "")
      Status.draft now).status = Status.draft ∧
    (postHandler st Scope.draftOnly an am data now).1 indexKey = st indexKey ∧
    (postHandler st Scope.draftOnly an am data now).2 =
      PublishResult.created
        (if data.slug.getD "" = "" then slugify data.title else data.slug.getD "")
        Status.draft 0 := by
  have hk := Ne.symm (draftKey_ne_indexKey
    (if data.slug.getD "" = "" then slugify data.title else data.slug.getD ""))
  refine ⟨?_, rfl, ?_, ?_⟩ <;>
    simp [postHandler, hno, putPost, kvPut, hk, buildPublishPost]

/-- Claim C6 (amended): when the caller-supplied slug is already occupied
in the published namespace, the create request fails as a conflict and the
store is completely unchanged. -/
theorem create_conflict_on_existing_published (st : KVStore) (scope : Scope)
    (an am : String) (data : PublishData) (now : Nat) (s : String) (p : AgentCMSPost)
    (hs : data.slug = some s) (hne : s ≠ "") (hscope : scope ≠ Scope.readOnly)
    (hex : getPost st s = some p) :
    postHandler st scope an am data now = (st, PublishResult.conflict s) := by
  unfold postHandler
  rw [if_neg hscope]
  simp [hs, hne, hex]

/-!
Concrete fixtures used by witnesses, counterexamples and the code-bug
evaluations.
-/

/-- A published post occupying slug `hello`. -/
def exPostW : AgentCMSPost :=
  { slug := "hello", title := "Hello Title",
    description := "A stale description from before",
    content := "old content", contentHtml := none, author := "AgentA",
    authorType := AuthorType.agent, tags := ["t"], category := none,
    publishedAt := 50, updatedAt := 50, status := Status.published,
    scheduledFor := none, featuredImage := none, ogImage := none,
    readingTime := some 1, featured := some false, metadata := (),
    agentMetadata := none }

/-- A store holding only the published copy of `hello`. -/
def st0W : KVStore :=
  fun k => if k = "posts:hello" then some (KVValue.post exPostW) else none

/-- A replacement content body (plain text, long enough for the schema). -/
def newCW : String :=
  "the new post content is now completely different and long enough to pass the validator"

/-- An update body that changes only the content. -/
def updContentW : UpdateData := { emptyUpdate with content := some newCW }

/-- An update body that changes only the title. -/
def updTitleW : UpdateData := { emptyUpdate with title := some "A Different Title" }

/-- A draft post occupying slug `hello` in the draft namespace only. -/
def draftPostW : AgentCMSPost :=
  { exPostW with status := Status.draft, publishedAt := 0 }

/-- A store holding only the draft copy of `hello`. -/
def stDraftW : KVStore :=
  fun k => if k = "posts:draft:hello" then some (KVValue.post draftPostW) else none

/-- A create body that supplies the slug `hello` explicitly. -/
def pubDataW : PublishData :=
  { title := "Hello Title", content := newCW, description := some "desc",
    tags := [], category := none, status := Status.published,
    scheduledFor := none, featuredImage := none, slug := some "hello",
    featured := false }

/-- Witness for C5: a concrete draft-only create on the empty store leaves
the index key untouched and reports the forced draft status. -/
theorem draft_only_create_forces_draft_witness :
    (postHandler emptyStore Scope.draftOnly ("AgentA") ("unknown") pubDataW 100).1 indexKey
      = emptyStore indexKey ∧
    (postHandler emptyStore Scope.draftOnly ("AgentA") ("unknown") pubDataW 100).2 =
      PublishResult.created ("hello") Status.draft 0 := by
  have h := draft_only_create_forces_draft emptyStore ("AgentA") ("unknown") pubDataW 100
    (by decide)
  exact ⟨h.2.2.1, h.2.2.2⟩

/-- Counterexample for C6 as frozen: the slug `hello` is in use by an
existing (draft) post, yet the create request succeeds and writes a new
published post rather than failing with a conflict — the collision check
consults only the published namespace. -/
theorem create_conflict_cex :
    stDraftW ("posts:draft:hello") = some (KVValue.post draftPostW) ∧
    (postHandler stDraftW Scope.publish ("AgentA") ("unknown") pubDataW 100).2
      = PublishResult.created ("hello") Status.published 100 ∧
    (postHandler stDraftW Scope.publish ("AgentA") ("unknown") pubDataW 100).1 ("posts:hello")
      ≠ none := by
  refine ⟨rfl, by decide, by decide⟩

/-- Witness for C9: applying the PUT merge to a concrete store keeps the
immutable identity fields of the stored record. -/
theorem put_preserves_immutable_fields_witness :
    (mergePut exPostW updTitleW Scope.publish 100).slug = exPostW.slug ∧
    (mergePut exPostW updTitleW Scope.publish 100).author = exPostW.author ∧
    (mergePut exPostW updTitleW Scope.publish 100).authorType = exPostW.authorType :=
  (put_preserves_immutable_fields st0W ("hello") Scope.publish updTitleW 100 exPostW
    (by decide) (by decide) (by decide)).2

set_option maxRecDepth 40000 in
/-- Claim C1 (code bug evaluation): updating only the content of a post
whose stored description is non-empty keeps the stale description; the
`existing.description || generateDescription(data.content)` fallback never
regenerates in that case, although the regenerated description would
differ. -/
theorem stale_description_kept_on_update :
    getPost st0W ("hello") = some exPostW ∧
    exPostW.description = ("A stale description from before") ∧
    updContentW.content = some newCW ∧
    updContentW.description = none ∧
    (putHandler st0W ("hello") Scope.publish (some updContentW) 100).1 ("posts:hello")
      = some (KVValue.post (mergePut exPostW updContentW Scope.publish 100)) ∧
    (mergePut exPostW updContentW Scope.publish 100).description = exPostW.description ∧
    generateDescription newCW = newCW ∧
    newCW ≠ exPostW.description := by
  refine ⟨by decide, rfl, rfl, rfl, by decide, by decide, by decide, by decide⟩

/-- Claim C2 (code bug evaluation): a draft-only-scoped PUT on a published
post writes the forced-draft copy to the draft namespace but never deletes
the published-namespace key, which still holds the old published copy
after the request completes. -/
theorem stale_published_copy_after_draft_transition :
    st0W ("posts:hello") = some (KVValue.post exPostW) ∧
    exPostW.status = Status.published ∧
    (putHandler st0W ("hello") Scope.draftOnly (some emptyUpdate) 100).2
      = PutResult.ok ("hello") Status.draft ∧
    (putHandler st0W ("hello") Scope.draftOnly (some emptyUpdate) 100).1 ("posts:draft:hello")
      = some (KVValue.post (mergePut exPostW emptyUpdate Scope.draftOnly 100)) ∧
    (putHandler st0W ("hello") Scope.draftOnly (some emptyUpdate) 100).1 ("posts:hello")
      = some (KVValue.post exPostW) := by
  refine ⟨rfl, rfl, by decide, by decide, by decide⟩

theorem updateIndex_step (st : KVStore) (p : AgentCMSPost) (a : IndexAction) (t : Nat)
    (hnd : ((getIndex st).posts.map PostIndexEntry.slug).Nodup) :
    ((getIndex (updateIndex st p a t)).posts.map PostIndexEntry.slug).Nodup ∧
    ∀ e ∈ (getIndex (updateIndex st p a t)).posts,
      (p.status = Status.published ∧ e = mkEntry p) ∨ e ∈ (getIndex st).posts := by
  rw [getIndex_updateIndex]
  constructor
  · have hperm := List.perm_insertionSort entryGE
      (if a = IndexAction.upsert ∧ p.status = Status.published then
        mkEntry p :: (getIndex st).posts.filter (fun e => e.slug ≠ p.slug)
      else (getIndex st).posts.filter (fun e => e.slug ≠ p.slug))
    refine ((hperm.map PostIndexEntry.slug).nodup_iff).mpr ?_
    have hkeptnd : (((getIndex st).posts.filter (fun e => e.slug ≠ p.slug)).map
        PostIndexEntry.slug).Nodup :=
      hnd.sublist ((List.filter_sublist _).map _)
    split
    · rw [List.map_cons, List.nodup_cons]
      refine ⟨?_, hkeptnd⟩
      intro hmem
      obtain ⟨e, he, heq⟩ := List.mem_map.mp hmem
      have hne := (List.mem_filter.mp he).2
      simp only [mkEntry] at heq
      simp [heq] at hne
    · exact hkeptnd
  · intro e he
    have he2 := (List.perm_insertionSort entryGE _).mem_iff.mp he
    by_cases hcond : a = IndexAction.upsert ∧ p.status = Status.published
    · rw [if_pos hcond] at he2
      rcases List.mem_cons.mp he2 with rfl | hk
      · exact Or.inl ⟨hcond.2, rfl⟩
      · exact Or.inr (List.mem_of_mem_filter hk)
    · rw [if_neg hcond] at he2
      exact Or.inr (List.mem_of_mem_filter he2)

theorem applyIndexCalls_inv (calls : List IndexCall) :
    ∀ (st : KVStore) (P : PostIndexEntry → Prop),
      ((getIndex st).posts.map PostIndexEntry.slug).Nodup →
      (∀ e ∈ (getIndex st).posts, P e) →
      ((getIndex (applyIndexCalls st calls)).posts.map PostIndexEntry.slug).Nodup ∧
      ∀ e ∈ (getIndex (applyIndexCalls st calls)).posts,
        P e ∨ ∃ c ∈ calls, c.post.status = Status.published ∧ e = mkEntry c.post := by
  induction calls with
  | nil =>
    intro st P hnd hP
    exact ⟨hnd, fun e he => Or.inl (hP e he)⟩
  | cons c rest ih =>
    intro st P hnd hP
    have step := updateIndex_step st c.post c.action c.now hnd
    have ihr := ih (updateIndex st c.post c.action c.now)
      (fun e => P e ∨ (c.post.status = Status.published ∧ e = mkEntry c.post))
      step.1
      (fun e he => (step.2 e he).elim (fun h => Or.inr h) (fun h => Or.inl (hP e h)))
    refine ⟨ihr.1, fun e he => ?_⟩
    rcases ihr.2 e he with (hP' | ⟨c', hc', hcp⟩)
    · rcases hP' with hPe | hc
      · exact Or.inl hPe
      · exact Or.inr ⟨c, List.mem_cons_self c rest, hc⟩
    · exact Or.inr ⟨c', List.mem_cons_of_mem c hc', hcp⟩

/-- Claim C4: starting from the empty index, after any sequence of
`updateIndex` calls every stored entry originates from an upsert of a
published post and the slugs in the index are pairwise distinct; moreover
an upsert of a post that is not published inserts nothing and removes any
prior entry for that slug: right after such a call, on any store, no entry
with that slug remains. -/
theorem index_never_lists_unpublished (calls : List IndexCall) :
    (((getIndex (applyIndexCalls emptyStore calls)).posts.map PostIndexEntry.slug).Nodup ∧
     ∀ e ∈ (getIndex (applyIndexCalls emptyStore calls)).posts,
       ∃ c ∈ calls, c.post.status = Status.published ∧ e = mkEntry c.post) ∧
    ∀ (st : KVStore) (p : AgentCMSPost) (t : Nat), p.status ≠ Status.published →
      ∀ e ∈ (getIndex (updateIndex st p IndexAction.upsert t)).posts, e.slug ≠ p.slug := by
  constructor
  · have h := applyIndexCalls_inv calls emptyStore (fun _ => False)
      (by simp [getIndex, emptyStore, emptyIndex])
      (by simp [getIndex, emptyStore, emptyIndex])
    exact ⟨h.1, fun e he => (h.2 e he).resolve_left id⟩
  · intro st p t hp e he
    rw [getIndex_updateIndex] at he
    have he2 := (List.perm_insertionSort entryGE _).mem_iff.mp he
    rw [if_neg (fun hc => hp hc.2)] at he2
    have hne := (List.mem_filter.mp he2).2
    simpa using hne

/-- A single published upsert, used by the C4 witness. -/
def callW : IndexCall := { post := exPostW, action := IndexAction.upsert, now := 60 }

/-- A published post on a different slug, used by the C4 witness. -/
def otherPostW : AgentCMSPost := { exPostW with slug := "other" }

/-- Witness for C4: after one published upsert the single stored entry is
traced back to that call; and after a draft upsert of `hello` on a store
whose index listed `other`, the surviving entry's slug differs from
`hello`. -/
theorem index_never_lists_unpublished_witness :
    (∃ c ∈ [callW], c.post.status = Status.published ∧ mkEntry exPostW = mkEntry c.post) ∧
    (mkEntry otherPostW).slug ≠ draftPostW.slug :=
  ⟨(index_never_lists_unpublished [callW]).1.2 (mkEntry exPostW) (by decide),
   (index_never_lists_unpublished []).2
     (updateIndex emptyStore otherPostW IndexAction.upsert 60) draftPostW 70
     (by decide) (mkEntry otherPostW) (by decide)⟩

theorem char_toNat_ofNat (n : Nat) (h : n.isValidChar) : (Char.ofNat n).toNat = n := by
  unfold Char.ofNat
  rw [dif_pos h]
  unfold Char.ofNatAux Char.toNat UInt32.toNat
  simp

theorem char_toNat_injective {c d : Char} (h : c.toNat = d.toNat) : c = d := by
  apply Char.ext
  exact UInt32.ext h

theorem jsToLower_not_upper (c : Char) :
    ¬(65 ≤ (jsToLower c).toNat ∧ (jsToLower c).toNat ≤ 90) := by
  unfold jsToLower
  split
  · rename_i h
    rw [char_toNat_ofNat (c.toNat + 32) (Or.inl (by omega))]
    omega
  · rename_i h
    omega

theorem mem_collapseRuns {p : Char → Bool} {rep : Char} {c : Char} :
    ∀ {b : Bool} {l : List Char}, c ∈ collapseRuns p rep b l → c = rep ∨ (c ∈ l ∧ p c = false) := by
  intro b l
  induction l generalizing b with
  | nil => intro h; simp [collapseRuns] at h
  | cons d ds ih =>
    intro h
    by_cases hd : p d = true
    · simp only [collapseRuns, if_pos hd] at h
      cases b with
      | true =>
        rcases ih h with h1 | ⟨h2, h3⟩
        · exact Or.inl h1
        · exact Or.inr ⟨List.mem_cons_of_mem d h2, h3⟩
      | false =>
        rcases List.mem_cons.mp h with rfl | h2
        · exact Or.inl rfl
        · rcases ih h2 with h1 | ⟨h3, h4⟩
          · exact Or.inl h1
          · exact Or.inr ⟨List.mem_cons_of_mem d h3, h4⟩
    · simp only [collapseRuns, if_neg hd] at h
      have hdf : p d = false := by simpa using hd
      rcases List.mem_cons.mp h with rfl | h2
      · exact Or.inr ⟨List.mem_cons_self c ds, hdf⟩
      · rcases ih h2 with h1 | ⟨h3, h4⟩
        · exact Or.inl h1
        · exact Or.inr ⟨List.mem_cons_of_mem d h3, h4⟩

theorem mem_dropTrailing {p : Char → Bool} {c : Char} :
    ∀ {l : List Char}, c ∈ dropTrailing p l → c ∈ l := by
  intro l
  induction l with
  | nil => intro h; simp [dropTrailing] at h
  | cons d ds ih =>
    intro h
    simp only [dropTrailing] at h
    split at h
    · exact absurd h (List.not_mem_nil c)
    · rcases List.mem_cons.mp h with rfl | h2
      · exact List.mem_cons_self c ds
      · exact List.mem_cons_of_mem d (ih h2)

theorem head?_dropWhile_false {p : Char → Bool} {c : Char} :
    ∀ {l : List Char}, (l.dropWhile p).head? = some c → p c = false := by
  intro l
  induction l with
  | nil => intro h; simp at h
  | cons d ds ih =>
    intro h
    rw [List.dropWhile_cons] at h
    split at h
    · exact ih h
    · rename_i hd
      simp only [List.head?_cons, Option.some.injEq] at h
      subst h
      simpa using hd

theorem head?_dropTrailing (p : Char → Bool) (l : List Char) :
    (dropTrailing p l).head? = none ∨ (dropTrailing p l).head? = l.head? := by
  cases l with
  | nil => exact Or.inl rfl
  | cons d ds =>
    simp only [dropTrailing]
    split
    · exact Or.inl rfl
    · exact Or.inr rfl

theorem head?_take80 (l : List Char) : (l.take 80).head? = l.head? := by
  cases l <;> rfl

theorem slugifyL_chars {t : List Char} {c : Char} (hc : c ∈ slugifyL t) :
    (97 ≤ c.toNat ∧ c.toNat ≤ 122) ∨ (48 ≤ c.toNat ∧ c.toNat ≤ 57) ∨ c.toNat = 45 := by
  simp only [slugifyL] at hc
  replace hc := (List.take_sublist 80 _).subset hc
  replace hc := mem_dropTrailing hc
  replace hc := (List.dropWhile_sublist _).subset hc
  rcases mem_collapseRuns hc with rfl | ⟨hc2, _⟩
  · right; right; decide
  · rcases mem_collapseRuns hc2 with rfl | ⟨hc3, hpsu⟩
    · right; right; decide
    · have hfil := List.mem_filter.mp hc3
      have hP := hfil.2
      have hmem := (List.dropWhile_sublist _).subset (mem_dropTrailing hfil.1)
      obtain ⟨c0, _, rfl⟩ := List.mem_map.mp hmem
      have hupper := jsToLower_not_upper c0
      simp only [Bool.or_eq_false_iff, decide_eq_false_iff_not] at hpsu
      simp only [Bool.or_eq_true, decide_eq_true_eq] at hP
      simp only [isAsciiWordChar, isJsSpace, decide_eq_true_eq] at hP
      simp only [isJsSpace, decide_eq_false_iff_not] at hpsu
      have h95 : (jsToLower c0).toNat ≠ 95 := by
        intro hx
        exact hpsu.2 (char_toNat_injective (by simpa using hx))
      rcases hP with (hW | hS) | hH
      · omega
      · exact absurd hS hpsu.1
      · have h45 : (jsToLower c0).toNat = 45 := by rw [hH]; decide
        exact Or.inr (Or.inr h45)

theorem slugifyL_head {t : List Char} : (slugifyL t).head? ≠ some '-' := by
  intro h
  simp only [slugifyL] at h
  rw [head?_take80] at h
  rcases head?_dropTrailing (fun c => c = '-')
      ((collapseRuns (fun c => c = '-') '-' false
        (collapseRuns (fun c => isJsSpace c || c = '_') '-' false
          ((trimL (t.map jsToLower)).filter
            (fun c => isAsciiWordChar c || isJsSpace c || c = '-')))).dropWhile
        (fun c => c = '-')) with h0 | h0
  · rw [h0] at h
    exact Option.noConfusion h
  · rw [h0] at h
    have := head?_dropWhile_false h
    simp at this

/-- Claim C10 (amended): for every input string the slug is at most 80
characters, every character is a lowercase ASCII letter, a digit or a
hyphen, and the result does not start with a hyphen.  (It can end with a
hyphen: the `slice(0, 80)` truncation runs after the edge-hyphen
stripping, see the counterexample.) -/
theorem slugify_shape (t : String) :
    (slugify t).length ≤ 80 ∧
    (∀ c ∈ (slugify t).data,
      (97 ≤ c.toNat ∧ c.toNat ≤ 122) ∨ (48 ≤ c.toNat ∧ c.toNat ≤ 57) ∨ c.toNat = 45) ∧
    (slugify t).data.head? ≠ some '-' := by
  refine ⟨?_, ?_, ?_⟩
  · show (slugifyL t.data).length ≤ 80
    simp only [slugifyL]
    simp [List.length_take]
  · intro c hc
    exact slugifyL_chars hc
  · exact slugifyL_head

/-- A title of 79 letters, a space and one more letter: the derived slug
is truncated right after the hyphen the space became. -/
def longTitleW : String := String.mk (List.replicate 79 'a' ++ [' ', 'b'])

set_option maxRecDepth 40000 in
/-- Counterexample for C10 as frozen: this slug ends with a hyphen,
because the 80-character truncation happens after trailing hyphens were
stripped. -/
theorem slugify_trailing_hyphen_cex :
    (slugify longTitleW).data.getLast? = some '-' ∧ (slugify longTitleW).length = 80 := by
  exact ⟨by decide, by decide⟩

/-- Witness for C10 on a concrete title, checking the character class at
the concrete member. -/
theorem slugify_shape_witness :
    (slugify ("Hello World")).length ≤ 80 ∧
    ((97 ≤ 'h'.toNat ∧ 'h'.toNat ≤ 122) ∨ (48 ≤ 'h'.toNat ∧ 'h'.toNat ≤ 57) ∨ 'h'.toNat = 45) ∧
    (slugify ("Hello World")).data.head? ≠ some '-' :=
  ⟨(slugify_shape ("Hello World")).1,
   (slugify_shape ("Hello World")).2.1 'h' (by decide),
   (slugify_shape ("Hello World")).2.2⟩

/-- Witness for C6 (amended): a create against a store whose published
namespace already holds the slug is rejected as a conflict with the store
unchanged. -/
theorem create_conflict_on_existing_published_witness :
    postHandler st0W Scope.publish ("AgentA") ("unknown") pubDataW 100 =
      (st0W, PublishResult.conflict ("hello")) :=
  create_conflict_on_existing_published st0W Scope.publish ("AgentA") ("unknown")
    pubDataW 100 ("hello") exPostW rfl (by decide) (by decide) (by decide)
